import Mathlib

/-!
Verification development for `InputDeviceListener.h` (Linux path).

Shallow embedding conventions:
* C++ `std::string` is modelled as `List Char`.
* File descriptors are `Int`, with `-1` meaning "not open"; successful
  `::open` calls hand out fresh descriptors from an explicit counter.
* The operating system is an explicit environment record (`OpenEnv`):
  `pathExists` models `::access(path, F_OK) == 0`, `openOk` models a
  successful `::open(path, O_RDONLY)`.
* `std::stoi` throwing on a non-hex character is modelled with `Option`
  (`none` = the exception propagates).
* A moved-from `InputDevice` (after `std::move`) is modelled as `husk`:
  fd `-1` and empty strings, matching the move-assignment operator and
  libstdc++ string moves.
-/

namespace IDL

/-- Embedding of the nested class `InputDevice`: an fd plus the three
strings stored by the constructor `InputDevice(id, name, handler)`. -/
structure InputDevice where
  mFd : Int
  mId : List Char
  mName : List Char
  mHandler : List Char
  deriving DecidableEq

/-- The constructor `InputDevice(id, name, handler)`: starts with fd `-1`. -/
def InputDevice.mkDev (id name handler : List Char) : InputDevice :=
  { mFd := -1, mId := id, mName := name, mHandler := handler }

/-- Accessor `id()`, which the source defines as `return m_name;`. -/
def InputDevice.id (d : InputDevice) : List Char := d.mName

/-- Accessor `name()`, which the source defines as `return m_id;`. -/
def InputDevice.name (d : InputDevice) : List Char := d.mId

/-- `operator==`: handler equality when both handlers are the non-empty
one of `this`, otherwise id equality. -/
def InputDevice.beq (a b : InputDevice) : Bool :=
  if !a.mHandler.isEmpty && a.mHandler == b.mHandler then true
  else a.mId == b.mId

/-- The OS environment seen by the pool manager. -/
structure OpenEnv where
  pathExists : List Char → Bool
  openOk : List Char → Bool

/-- `isOpened()`: `if (::access(m_handler.c_str(), F_OK) == 0) return (m_fd == -1); return false;` -/
def InputDevice.isOpened (env : OpenEnv) (d : InputDevice) : Bool :=
  if env.pathExists d.mHandler then d.mFd == -1 else false

/-- `open()`: already-open succeeds, empty handler fails, otherwise ask the
OS; a fresh fd is drawn from the counter on success. Returns
(device, counter, success). -/
def InputDevice.openDev (env : OpenEnv) (ctr : Nat) (d : InputDevice) :
    InputDevice × Nat × Bool :=
  if d.mFd != -1 then (d, ctr, true)
  else if d.mHandler.isEmpty then (d, ctr, false)
  else if env.openOk d.mHandler then ({ d with mFd := (ctr : Int) }, ctr + 1, true)
  else (d, ctr, false)

/-- `close()`: sets the fd back to `-1` (idempotent). -/
def InputDevice.closeDev (d : InputDevice) : InputDevice := { d with mFd := -1 }

/-- A moved-from `InputDevice`: the move-assignment operator sets
`other.m_fd = -1` and the strings are moved out (modelled empty). -/
def husk : InputDevice := { mFd := -1, mId := [], mName := [], mHandler := [] }

/-! ### Device discovery: `availableInputDevices` -/

/-- The constant `devicePath{ "/dev/input/" }`. -/
def devicePath : List Char := "/dev/input/".toList

/-- The constant `idPrefix{ "I: " }`. -/
def idTag : List Char := "I: ".toList

/-- The constant `namePrefix{ "N: Name=" }`. -/
def nameTag : List Char := "N: Name=".toList

/-- The constant `handlerPrefix{ "H: Handlers=" }`. -/
def handlerTag : List Char := "H: Handlers=".toList

/-- The constant `eventPrefix{ "B: EV=" }`. -/
def eventTag : List Char := "B: EV=".toList

/-- The token prefix `"event"` looked for among handler tokens. -/
def eventWord : List Char := "event".toList

/-- The constant `bits{ 0x01, 0x02, 0x04, 0x88 }`. -/
def bitMasks : List Nat := [1, 2, 4, 136]

/-- `EV_KEY` from `linux/input-event-codes.h`. -/
def EV_KEY : Nat := 1

/-- `EV_REL` from `linux/input-event-codes.h`. -/
def EV_REL : Nat := 2

/-- `EV_ABS` from `linux/input-event-codes.h`. -/
def EV_ABS : Nat := 3

/-- The test `(i + j) == EV_KEY || (i + j) == EV_REL || (i + j) == EV_ABS`. -/
def isEvCode (p : Nat) : Bool := p == EV_KEY || p == EV_REL || p == EV_ABS

/-- State of the `B: EV=` scanning loop: the two position counters and the
`isInputDevice` flag. -/
structure EvState where
  i : Nat
  j : Nat
  isInputDevice : Bool
  deriving DecidableEq

/-- `if (++i > 9) { i = 0; j += 10; }`. -/
def bump (s : EvState) : EvState :=
  if s.i + 1 > 9 then { i := 0, j := s.j + 10, isInputDevice := s.isInputDevice }
  else { s with i := s.i + 1 }

/-- The inner `for (size_t k = 0; k < bits.size(); ++k)` loop over one
nibble `n`: on a set bit at an event-class position, set the flag and
`break` (skipping the `++i` of that step); otherwise advance the counter. -/
def procBits (n : Nat) : List Nat → EvState → EvState
  | [], s => s
  | b :: bs, s =>
    if (n &&& b != 0) && isEvCode (s.i + s.j) then { s with isInputDevice := true }
    else procBits n bs (bump s)

/-- The outer character loop `for (auto it = ev.rbegin(); it != ev.rend(); ++it)`,
taking the already-reversed list of nibble values. -/
def evScanNibbles (ns : List Nat) (s : EvState) : EvState :=
  ns.foldl (fun st n => procBits n bitMasks st) s

/-- `std::stoi(std::string{ *it }, nullptr, 16)` on a single character:
`none` models the `std::invalid_argument` exception on a non-hex digit. -/
def hexVal? (c : Char) : Option Nat :=
  if '0' ≤ c ∧ c ≤ '9' then some (c.toNat - '0'.toNat)
  else if 'a' ≤ c ∧ c ≤ 'f' then some (c.toNat - 'a'.toNat + 10)
  else if 'A' ≤ c ∧ c ≤ 'F' then some (c.toNat - 'A'.toNat + 10)
  else none

/-- Scan one `B: EV=` line body, starting from the current flag value
(fresh `i = j = 0` per line, as in the source). -/
def evScanLine (ev : List Char) (flag : Bool) : Option Bool :=
  (ev.reverse.mapM hexVal?).map
    (fun ns => (evScanNibbles ns { i := 0, j := 0, isInputDevice := flag }).isInputDevice)

/-- `name.find_first_not_of('\x22')` as an index option (`none` = `npos`). -/
def findFirstNotQuote : List Char → Option Nat
  | [] => none
  | c :: t => if c ≠ '"' then some 0 else (findFirstNotQuote t).map (fun k => k + 1)

/-- `name.find_last_not_of('\x22')` as an index option (`none` = `npos`):
the last index holding a non-quote is the mirror image of the first one
in the reversed string. -/
def findLastNotQuote (cs : List Char) : Option Nat :=
  (findFirstNotQuote cs.reverse).map (fun k => cs.length - 1 - k)

/-- `name.erase(0, name.find_first_not_of('\x22'))`: erasing `npos` many
characters from position 0 empties the string. -/
def eraseFront (cs : List Char) : List Char :=
  match findFirstNotQuote cs with
  | none => []
  | some k => cs.drop k

/-- `name.erase(name.find_last_not_of('\x22') + 1)`: on `npos` the
`size_t` increment wraps to 0, erasing everything. -/
def eraseBack (cs : List Char) : List Char :=
  match findLastNotQuote cs with
  | none => []
  | some k => cs.take (k + 1)

/-- The name post-processing in `availableInputDevices`: guarded by
`if (!name.empty())`, then the two `erase` calls. -/
def stripName (nm : List Char) : List Char :=
  if nm.isEmpty then nm else eraseBack (eraseFront nm)

/-- The handlers-line body: `getline(ss, token, ' ')` tokens, first
non-empty token starting with `"event"` becomes `devicePath + token`;
with no such token the `handler` variable is left unchanged. -/
def parseHandlers (rest : List Char) (current : List Char) : List Char :=
  match (rest.splitOn ' ').find? (fun t => !t.isEmpty && eventWord.isPrefixOf t) with
  | some t => devicePath ++ t
  | none => current

/-- The per-block accumulator: the local variables `id`, `name`,
`handler`, `isInputDevice` of the block loop. -/
structure BlockAcc where
  id : List Char
  name : List Char
  handler : List Char
  isInputDevice : Bool
  deriving DecidableEq

/-- Initial values of the block-local variables. -/
def initAcc : BlockAcc := { id := [], name := [], handler := [], isInputDevice := false }

/-- One iteration of `for (auto &prop : props)`: dispatch on the
recognized line prefixes. `none` models the `std::stoi` exception. -/
def processProp (acc : BlockAcc) (prop : List Char) : Option BlockAcc :=
  if idTag.isPrefixOf prop then some { acc with id := prop.drop idTag.length }
  else if nameTag.isPrefixOf prop then
    some { acc with name := stripName (prop.drop nameTag.length) }
  else if handlerTag.isPrefixOf prop then
    some { acc with handler := parseHandlers (prop.drop handlerTag.length) acc.handler }
  else if eventTag.isPrefixOf prop then
    (evScanLine (prop.drop eventTag.length) acc.isInputDevice).map
      (fun b => { acc with isInputDevice := b })
  else some acc

/-- Process one device block: fold the props, then
`if (isInputDevice && !handler.empty()) devices.emplace_back(id, name, handler);`.
The outer `Option` models the `std::stoi` exception; the inner one is
whether a descriptor is emitted. -/
def processBlock (props : List (List Char)) : Option (Option InputDevice) :=
  (props.foldlM processProp initAcc).map
    (fun acc =>
      if acc.isInputDevice && !acc.handler.isEmpty then
        some (InputDevice.mkDev acc.id acc.name acc.handler)
      else none)

/-- Split off the text before the first `"\n\n"`; `none` when no
separator occurs (the source loop then stops, dropping the tail). -/
def splitFirstSep : List Char → Option (List Char × List Char)
  | [] => none
  | [_] => none
  | c1 :: c2 :: rest =>
    if c1 = '\n' ∧ c2 = '\n' then some ([], rest)
    else (splitFirstSep (c2 :: rest)).map (fun p => (c1 :: p.1, p.2))

/-- The `while ((end = content.find(sep, begin)) != npos)` block-splitting
loop: empty tokens are skipped, the tail after the last separator is
dropped. Fuel-driven; each step consumes at least the two separator
characters, so `length + 1` fuel always suffices. -/
def splitBlocksAux : Nat → List Char → List (List Char)
  | 0, _ => []
  | fuel + 1, cs =>
    match splitFirstSep cs with
    | none => []
    | some (tok, rest) =>
      (if tok.isEmpty then [] else [tok]) ++ splitBlocksAux fuel rest

/-- Split the registry contents into per-device blocks. -/
def splitBlocks (cs : List Char) : List (List Char) :=
  splitBlocksAux (cs.length + 1) cs

/-- `getline(ss, token, '\n')` collecting non-empty lines. -/
def splitProps (block : List Char) : List (List Char) :=
  (block.splitOn '\n').filter (fun l => !l.isEmpty)

/-- `availableInputDevices(devices)`: the registry contents are `none`
when `/proc/bus/input/devices` cannot be opened, in which case the
function returns at once with `devices` untouched. Otherwise every block
is parsed and eligible descriptors are appended to `devices`. The outer
`Option` models the `std::stoi` exception escaping the function. -/
def availableInputDevices (registry : Option (List Char))
    (devices : List InputDevice) : Option (List InputDevice) :=
  match registry with
  | none => some devices
  | some content =>
    (splitBlocks content).foldlM
      (fun devs block =>
        (processBlock (splitProps block)).map (fun o => devs ++ o.toList))
      devices

/-! ### Pool reconciliation: `openInputDevices` -/

/-- Loop state of `openInputDevices`: the previous pool `devices` (with
moved-from slots), the growing `openedDevices`, and the fd counter. -/
structure ReconcileSt where
  prev : List InputDevice
  opened : List InputDevice
  ctr : Nat

/-- The `if (!isOpened) { if (it->open()) { FD_SET; push_back(move(*it)); } }`
branch on a freshly discovered descriptor. -/
def tryOpenFresh (env : OpenEnv) (st : ReconcileSt) (d : InputDevice) : ReconcileSt :=
  let r := d.openDev env st.ctr
  if r.2.2 then { st with opened := st.opened ++ [r.1], ctr := r.2.1 }
  else { st with ctr := r.2.1 }

/-- One iteration of `for (auto it = allDevices.begin(); ...)`:
`find_if` an equal descriptor in the previous pool; if found and
`isOpened()`, move it into `openedDevices` (leaving a moved-from husk in
the previous pool); otherwise open the fresh descriptor. -/
def reconcileStep (env : OpenEnv) (st : ReconcileSt) (d : InputDevice) : ReconcileSt :=
  match st.prev.findIdx? (fun dev => d.beq dev) with
  | some k =>
    let p := st.prev.getD k husk
    if p.isOpened env then
      { st with prev := st.prev.set k husk, opened := st.opened ++ [p] }
    else tryOpenFresh env st d
  | none => tryOpenFresh env st d

/-- Insertion step of the `std::sort(..., std::less<InputDevice>{})`
call; `operator<` compares fds. -/
def insertFd (d : InputDevice) : List InputDevice → List InputDevice
  | [] => [d]
  | x :: xs => if d.mFd ≤ x.mFd then d :: x :: xs else x :: insertFd d xs

/-- Sorting `openedDevices` by fd before the final `swap`. -/
def sortByFd : List InputDevice → List InputDevice
  | [] => []
  | x :: xs => insertFd x (sortByFd xs)

/-- `openInputDevices(allfds, devices)`, parameterised by the discovery
result `fresh` (the `allDevices` produced by `availableInputDevices`).
Returns the new pool (after the sort and `swap`) and the fd counter;
descriptors of the old pool that were not moved out are destroyed, which
closes their fds. The multiplex set is exactly the fds of the returned
pool. -/
def openInputDevices (env : OpenEnv) (fresh : List InputDevice)
    (devices : List InputDevice) (ctr : Nat) : List InputDevice × Nat :=
  let st := fresh.foldl (reconcileStep env) { prev := devices, opened := [], ctr := ctr }
  (sortByFd st.opened, st.ctr)

/-! ### Worker loop fragments: `run` and `getCurrentTime` -/

/-- The inner-loop staleness test from `run`:
`now = getCurrentTime(); if (last - now > 5) break;`. `true` means the
inner listening loop breaks before the `::select` wait. -/
def staleBreak (last now : Int) : Bool := last - now > 5

/-- One `struct input_event` as far as the worker inspects it. -/
structure InputEventRec where
  type : Nat
  deriving DecidableEq

/-- The event test `event.type == EV_KEY || event.type == EV_REL || event.type == EV_ABS`. -/
def relevantEvent (e : InputEventRec) : Bool :=
  e.type == EV_KEY || e.type == EV_REL || e.type == EV_ABS

/-- The worker-visible shared state: the current monotonic clock reading
(`getCurrentTime` uses `CLOCK_MONOTONIC`, so it never decreases) and the
atomic `m_lastOperateTime`. -/
structure WorkerObs where
  time : Nat
  lastOperateTime : Nat
  deriving DecidableEq

/-- Worker start state at monotonic time `t0`: the member initialiser
`std::atomic<time_t> m_lastOperateTime{ 0 }`. -/
def initWorker (t0 : Nat) : WorkerObs := { time := t0, lastOperateTime := 0 }

/-- One full event read by the worker, `dt` seconds of monotonic time
after the previous one: `m_lastOperateTime = getCurrentTime();` exactly
when the event class is key / relative / absolute. -/
def workerStep (dt : Nat) (e : InputEventRec) (s : WorkerObs) : WorkerObs :=
  let s2 := { s with time := s.time + dt }
  if relevantEvent e then { s2 with lastOperateTime := s2.time } else s2

/-- The sequence of worker states along a trace of timed full reads,
including the start state. -/
def workerStates (s : WorkerObs) : List (Nat × InputEventRec) → List WorkerObs
  | [] => [s]
  | te :: rest => s :: workerStates (workerStep te.1 te.2 s) rest

/-! ### Lifecycle: `listen` / `start` -/

/-- Lifecycle state: the `m_isRunning` flag plus a count of worker
threads ever spawned (each spawned worker produces exactly one
completion signal via its `quitPromise`). -/
structure ListenerState where
  isRunning : Bool
  workerCount : Nat
  deriving DecidableEq

/-- `listen()`: if already running return `true`; else set the flag,
spawn one detached worker, return `true`. -/
def listen (s : ListenerState) : ListenerState × Bool :=
  if s.isRunning then (s, true)
  else ({ isRunning := true, workerCount := s.workerCount + 1 }, true)

/-- `start()`: `listen()` under the mutex (callers are serialised, so
the sequential function is the whole behaviour). -/
def startM (s : ListenerState) : ListenerState × Bool := listen s

/-! ### Concrete fixtures used by the evaluation theorems -/

/-- The access path `/dev/input/event0`. -/
def ev0Path : List Char := "/dev/input/event0".toList

/-- An OS environment in which exactly `/dev/input/event0` exists and can
be opened. -/
def oneDevEnv : OpenEnv :=
  { pathExists := fun h => h == ev0Path, openOk := fun h => h == ev0Path }

/-- The single discovered device of the fixture, holding fd `n`
(`-1` = not open). -/
def devAt (n : Int) : InputDevice :=
  { mFd := n, mId := "i0".toList, mName := "Kbd".toList, mHandler := ev0Path }

/-- The fixture device as freshly produced by discovery (fd `-1`). -/
def freshDev0 : InputDevice := InputDevice.mkDev "i0".toList "Kbd".toList ev0Path

/-- Comparison function worded as the spec describes the name cleanup:
strip a single leading and a single trailing quote character if present. -/
def stripNameSingle (nm : List Char) : List Char :=
  let a := match nm with
    | '"' :: t => t
    | _ => nm
  match a.reverse with
  | '"' :: t => t.reverse
  | _ => a

/-- A registry block for the emission fixture. -/
def props5 : List (List Char) :=
  ["I: Bus=0011 Vendor=0001".toList,
   "N: Name=\"AT Keyboard\"".toList,
   "H: Handlers=sysrq kbd event0".toList,
   "B: EV=120013".toList]

/-- The block-local variables after parsing `props5`. -/
def acc5 : BlockAcc :=
  { id := "Bus=0011 Vendor=0001".toList,
    name := "AT Keyboard".toList,
    handler := "/dev/input/event0".toList,
    isInputDevice := true }

/-! ## Helper lemmas -/

theorem bump_flag (s : EvState) : (bump s).isInputDevice = s.isInputDevice := by
  unfold bump
  split <;> rfl

theorem procBits_flag_mono (n : Nat) (bs : List Nat) (s : EvState)
    (h : s.isInputDevice = true) : (procBits n bs s).isInputDevice = true := by
  induction bs generalizing s with
  | nil => exact h
  | cons b bs ih =>
    unfold procBits
    split
    · simp
    · exact ih (bump s) (by rw [bump_flag]; exact h)

theorem evScanNibbles_flag_mono (ns : List Nat) (s : EvState)
    (h : s.isInputDevice = true) : (evScanNibbles ns s).isInputDevice = true := by
  induction ns generalizing s with
  | nil => exact h
  | cons n ns ih =>
    simp only [evScanNibbles, List.foldl_cons] at *
    exact ih (procBits n bitMasks s) (procBits_flag_mono n bitMasks s h)

theorem evScanNibbles_cons (n : Nat) (ns : List Nat) (s : EvState) :
    evScanNibbles (n :: ns) s = evScanNibbles ns (procBits n bitMasks s) := rfl

theorem bump_sum_ge (s : EvState) (h : 4 ≤ s.i + s.j) :
    4 ≤ (bump s).i + (bump s).j := by
  unfold bump
  split <;> simp only [] <;> omega

theorem isEvCode_false_of_ge (p : Nat) (h : 4 ≤ p) : isEvCode p = false := by
  unfold isEvCode EV_KEY EV_REL EV_ABS
  have h1 : (p == 1) = false := by simp only [beq_eq_false_iff_ne, ne_eq]; omega
  have h2 : (p == 2) = false := by simp only [beq_eq_false_iff_ne, ne_eq]; omega
  have h3 : (p == 3) = false := by simp only [beq_eq_false_iff_ne, ne_eq]; omega
  rw [h1, h2, h3]
  rfl

theorem procBits_stuck (n : Nat) (bs : List Nat) (s : EvState) (h : 4 ≤ s.i + s.j) :
    (procBits n bs s).isInputDevice = s.isInputDevice ∧
    4 ≤ (procBits n bs s).i + (procBits n bs s).j := by
  induction bs generalizing s with
  | nil => exact ⟨rfl, h⟩
  | cons b bs ih =>
    unfold procBits
    rw [isEvCode_false_of_ge (s.i + s.j) h]
    simp only [Bool.and_false, if_neg (by simp : ¬ (false = true))]
    have hb := ih (bump s) (bump_sum_ge s h)
    exact ⟨hb.1.trans (bump_flag s), hb.2⟩

theorem evScanNibbles_stuck (ns : List Nat) (s : EvState) (h : 4 ≤ s.i + s.j) :
    (evScanNibbles ns s).isInputDevice = s.isInputDevice := by
  induction ns generalizing s with
  | nil => rfl
  | cons n ns ih =>
    simp only [evScanNibbles, List.foldl_cons] at *
    have hp := procBits_stuck n bitMasks s h
    exact (ih (procBits n bitMasks s) hp.2).trans hp.1

theorem eraseFront_eq_dropWhile (cs : List Char) :
    eraseFront cs = cs.dropWhile (fun x => x == '"') := by
  induction cs with
  | nil => rfl
  | cons c t ih =>
    unfold eraseFront findFirstNotQuote
    by_cases hc : c = '"'
    · subst hc
      rw [if_neg (by simp)]
      rw [List.dropWhile_cons_of_pos (by simp)]
      rw [← ih]
      unfold eraseFront
      cases h : findFirstNotQuote t with
      | none => simp
      | some k => simp
    · rw [if_pos hc]
      rw [List.dropWhile_cons_of_neg (by simp [hc])]
      rfl

theorem findFirstNotQuote_lt_length (cs : List Char) (k : Nat)
    (h : findFirstNotQuote cs = some k) : k < cs.length := by
  induction cs generalizing k with
  | nil => simp [findFirstNotQuote] at h
  | cons c t ih =>
    unfold findFirstNotQuote at h
    split at h
    · cases h
      simp
    · cases hk : findFirstNotQuote t with
      | none => rw [hk] at h; simp at h
      | some m =>
        rw [hk] at h
        simp only [Option.map_some', Option.some_inj] at h
        have := ih m hk
        simp only [List.length_cons]
        omega

theorem eraseBack_eq_rdropWhile (cs : List Char) :
    eraseBack cs = (cs.reverse.dropWhile (fun x => x == '"')).reverse := by
  unfold eraseBack findLastNotQuote
  have hfront := eraseFront_eq_dropWhile cs.reverse
  cases h : findFirstNotQuote cs.reverse with
  | none =>
    unfold eraseFront at hfront
    rw [h] at hfront
    rw [← hfront]
    rfl
  | some k =>
    unfold eraseFront at hfront
    rw [h] at hfront
    have hk : k < cs.length := by
      have := findFirstNotQuote_lt_length cs.reverse k h
      simpa using this
    simp only [Option.map_some']
    have harith : cs.length - 1 - k + 1 = cs.length - k := by omega
    rw [harith, ← hfront]
    have : cs.take (cs.length - k) = (cs.reverse.drop k).reverse := by
      have hr := List.rdrop_eq_reverse_drop_reverse (l := cs) (n := k)
      simpa [List.rdrop] using hr
    exact this

theorem processProp_handler_of_no_tag (acc acc2 : BlockAcc) (p : List Char)
    (hno : handlerTag.isPrefixOf p = false)
    (h : processProp acc p = some acc2) : acc2.handler = acc.handler := by
  unfold processProp at h
  split at h
  · simp at h
    rw [← h]
  · split at h
    · simp at h
      rw [← h]
    · rw [hno] at h
      simp only [Bool.false_eq_true, if_neg (by simp : ¬ False)] at h
      split at h
      · cases hev : evScanLine (p.drop eventTag.length) acc.isInputDevice with
        | none => rw [hev] at h; simp at h
        | some b =>
          rw [hev] at h
          simp at h
          rw [← h]
      · simp at h
        rw [← h]

theorem foldlM_handler_of_no_tag (props : List (List Char)) (acc acc2 : BlockAcc)
    (hno : ∀ p ∈ props, handlerTag.isPrefixOf p = false)
    (hfold : props.foldlM processProp acc = some acc2) :
    acc2.handler = acc.handler := by
  induction props generalizing acc with
  | nil =>
    simp only [List.foldlM_nil, Option.pure_def, Option.some_inj] at hfold
    rw [← hfold]
  | cons p ps ih =>
    rw [List.foldlM_cons] at hfold
    cases hstep : processProp acc p with
    | none => rw [hstep] at hfold; simp at hfold
    | some a =>
      rw [hstep] at hfold
      simp only [Option.bind_eq_bind, Option.some_bind] at hfold
      have h1 := processProp_handler_of_no_tag acc a p (hno p (by simp)) hstep
      have h2 := ih a (fun q hq => hno q (by simp [hq])) hfold
      rw [h2, h1]

theorem workerStep_mono (dt : Nat) (e : InputEventRec) (s : WorkerObs)
    (h : s.lastOperateTime ≤ s.time) :
    s.lastOperateTime ≤ (workerStep dt e s).lastOperateTime ∧
    (workerStep dt e s).lastOperateTime ≤ (workerStep dt e s).time := by
  unfold workerStep
  split <;> simp <;> omega

theorem workerStates_cons_head (s : WorkerObs) (l : List (Nat × InputEventRec)) :
    ∃ t, workerStates s l = s :: t := by
  cases l with
  | nil => exact ⟨[], rfl⟩
  | cons te rest => exact ⟨_, rfl⟩

theorem workerStates_chain (trace : List (Nat × InputEventRec)) (s : WorkerObs)
    (h : s.lastOperateTime ≤ s.time) :
    List.Chain' (fun a b => a ≤ b)
      ((workerStates s trace).map (fun w => w.lastOperateTime)) := by
  induction trace generalizing s with
  | nil => simp [workerStates]
  | cons te rest ih =>
    obtain ⟨t, ht⟩ := workerStates_cons_head (workerStep te.1 te.2 s) rest
    have hm := workerStep_mono te.1 te.2 s h
    have hrest := ih (workerStep te.1 te.2 s) hm.2
    rw [ht] at hrest
    simp only [workerStates, ht, List.map_cons, List.chain'_cons] at *
    exact ⟨hm.1, hrest⟩

/-! ## Claim theorems -/

/-- Claim C1: the spec says the inner listening loop breaks out when the
elapsed time since the previous iteration exceeds 5 seconds. The code
tests `last - now > 5`, which is false whenever `last ≤ now` — and the
monotonic clock guarantees `last ≤ now` — so the staleness break can
never fire, however large `now - last` is. -/
theorem c1_stale_break_never_fires (last now : Int) (h : last ≤ now) :
    staleBreak last now = false := by
  simp only [staleBreak, decide_eq_false_iff_not, not_lt]
  omega

theorem c1_stale_break_never_fires_witness :
    (10 : Int) - 0 > 5 ∧ staleBreak 0 10 = false :=
  ⟨by decide, c1_stale_break_never_fires 0 10 (by decide)⟩

/-- Claim C7: when the registry resource cannot be opened,
`availableInputDevices` returns at once without failing and without
touching the output collection; started from an empty collection the
result is the empty list. -/
theorem c7_registry_open_failure (devices : List InputDevice) :
    availableInputDevices none devices = some devices ∧
    availableInputDevices none ([] : List InputDevice) = some [] :=
  ⟨rfl, rfl⟩

/-- Claim C8: `start()` returns `true` whether it starts now or was
already running; a second `start` right after a first one leaves the
state unchanged (in particular spawns no second worker, so only one
completion signal is ever produced), reports `true`, and `isRunning` is
`true` after both calls; a start spawns at most one worker. -/
theorem c8_start_idempotent (s : ListenerState) :
    (startM s).2 = true ∧
    (startM s).1.isRunning = true ∧
    (startM (startM s).1).2 = true ∧
    (startM (startM s).1).1.isRunning = true ∧
    (startM (startM s).1).1 = (startM s).1 ∧
    (startM s).1.workerCount ≤ s.workerCount + 1 := by
  obtain ⟨r, n⟩ := s
  cases r <;> simp [startM, listen]

/-- Claim C10: a descriptor constructed as `InputDevice(id, name, handler)`
answers `id()` with the display-name string and `name()` with the
stable-id string — the accessors return each other's field, exactly as
the source (`id()` returns `m_name`, `name()` returns `m_id`). -/
theorem c10_accessors_swapped (sid nm handler : List Char) :
    (InputDevice.mkDev sid nm handler).id = nm ∧
    (InputDevice.mkDev sid nm handler).name = sid :=
  ⟨rfl, rfl⟩

/-- Claim C2: the claim says a previously open descriptor whose path
still exists is kept with its handle unchanged, and that every pool
member ends up with an open handle. The code's `isOpened()` returns
`m_fd == -1`, so: a previously OPEN descriptor (fd 3) is *not* kept —
the fresh duplicate is opened at a new fd (100) and the old handle is
dropped — while a previously CLOSED descriptor (fd -1) *is* "kept",
putting a descriptor with no open handle into the new pool. -/
theorem c2_previously_open_not_kept :
    InputDevice.isOpened oneDevEnv (devAt 3) = false ∧
    InputDevice.isOpened oneDevEnv (devAt (-1)) = true ∧
    (openInputDevices oneDevEnv [freshDev0] [devAt 3] 100).1 = [devAt 100] ∧
    (openInputDevices oneDevEnv [freshDev0] [devAt (-1)] 100).1 = [devAt (-1)] := by
  decide

/-- Claim C3: with an unchanged discovery result across two consecutive
rebuild cycles, the claim says no open descriptor is closed and
reopened. In the code, cycle one opens the device at fd 100; cycle two,
fed the identical discovery result, finds the pool entry, sees
`isOpened()` false (fd is not `-1`), and opens the fresh duplicate at
fd 101 — the counter advance shows a new `::open` happened and the old
handle was discarded. -/
theorem c3_unchanged_discovery_churns :
    (openInputDevices oneDevEnv [freshDev0] [] 100).1 = [devAt 100] ∧
    (openInputDevices oneDevEnv [freshDev0] [devAt 100] 101).1 = [devAt 101] ∧
    (openInputDevices oneDevEnv [freshDev0] [devAt 100] 101).2 = 102 := by
  decide

/-- Claim C6 counterexample: on the name `""A""` the code strips *all*
leading and trailing quotes, producing `A`, while the claim's
single-quote stripping would produce `"A"`. -/
theorem c6_counterexample :
    stripName "\"\"A\"\"".toList = ['A'] ∧
    stripNameSingle "\"\"A\"\"".toList = "\"A\"".toList ∧
    stripName "\"\"A\"\"".toList ≠ stripNameSingle "\"\"A\"\"".toList := by
  decide

/-- Claim C4: capability-bitmask classification. A bitmask whose only
set bit sits at the key-event class position — rightmost nibble `2`, any
remaining nibbles `0` — is classified as a human-input device. A bitmask
whose rightmost nibble has bits 1–3 clear carries no bit at the key,
relative-motion or absolute-motion positions (every other event class
sits at bit position ≥ 4) and is not classified as one. Nibble lists are
the hex digits read right-to-left, exactly as the source loop consumes
them. -/
theorem c4_ev_classification (ns ms : List Nat)
    (hkey : ns.getD 0 0 = 2) (hrest : ∀ k ∈ ns.drop 1, k = 0)
    (hm : ms.getD 0 0 &&& 14 = 0) (hm16 : ms.getD 0 0 < 16) :
    (evScanNibbles ns { i := 0, j := 0, isInputDevice := false }).isInputDevice
        = true ∧
    (evScanNibbles ms { i := 0, j := 0, isInputDevice := false }).isInputDevice
        = false := by
  constructor
  · cases ns with
    | nil => simp at hkey
    | cons n0 rest =>
      have h2 : n0 = 2 := by simpa using hkey
      subst h2
      rw [evScanNibbles_cons]
      rw [show procBits 2 bitMasks { i := 0, j := 0, isInputDevice := false } =
        { i := 1, j := 0, isInputDevice := true } from by decide]
      exact evScanNibbles_flag_mono rest _ rfl
  · cases ms with
    | nil => rfl
    | cons m0 rest =>
      have hm14 : m0 &&& 14 = 0 := by simpa using hm
      have hmlt : m0 < 16 := by simpa using hm16
      have hstep : procBits m0 bitMasks { i := 0, j := 0, isInputDevice := false } =
          { i := 4, j := 0, isInputDevice := false } := by
        clear hm hm16 hrest hkey
        revert hm14
        interval_cases m0 <;> decide
      rw [evScanNibbles_cons, hstep]
      exact evScanNibbles_stuck rest _ (by decide)

theorem c4_ev_classification_witness :
    (evScanNibbles [2] { i := 0, j := 0, isInputDevice := false }).isInputDevice
        = true ∧
    (evScanNibbles [0, 1] { i := 0, j := 0, isInputDevice := false }).isInputDevice
        = false :=
  c4_ev_classification [2] [0, 1] (by decide) (by simp) (by decide) (by decide)

/-- Claim C5: a registry block yields a descriptor exactly when the
parsed capability flag is set and the resolved access path is non-empty;
and a block containing no handlers line leaves the access path empty, so
it yields no descriptor even when its bitmask flags it input-capable. -/
theorem c5_descriptor_emission (props : List (List Char)) (acc : BlockAcc)
    (hacc : props.foldlM processProp initAcc = some acc) :
    (processBlock props =
        some (some (InputDevice.mkDev acc.id acc.name acc.handler)) ↔
      acc.isInputDevice = true ∧ acc.handler ≠ []) ∧
    ((∀ p ∈ props, handlerTag.isPrefixOf p = false) →
      processBlock props = some none) := by
  have hpb : processBlock props =
      some (if acc.isInputDevice && !acc.handler.isEmpty then
        some (InputDevice.mkDev acc.id acc.name acc.handler) else none) := by
    unfold processBlock
    rw [hacc]
    rfl
  constructor
  · rw [hpb]
    by_cases hflag : acc.isInputDevice = true
    · by_cases hh : acc.handler = []
      · simp [hflag, hh]
      · simp [hflag, hh, List.isEmpty_iff]
    · simp only [Bool.not_eq_true] at hflag
      simp [hflag]
  · intro hno
    have hh : acc.handler = [] := by
      have := foldlM_handler_of_no_tag props initAcc acc hno hacc
      simpa [initAcc] using this
    rw [hpb, hh]
    simp

theorem c5_descriptor_emission_witness :
    (processBlock props5 =
        some (some (InputDevice.mkDev acc5.id acc5.name acc5.handler)) ↔
      acc5.isInputDevice = true ∧ acc5.handler ≠ []) ∧
    ((∀ p ∈ props5, handlerTag.isPrefixOf p = false) →
      processBlock props5 = some none) :=
  c5_descriptor_emission props5 acc5 (by decide)

/-- Claim C9: `m_lastOperateTime` starts at `0` (no interaction observed
yet), and along any worker trace of full event reads under the monotonic
clock, the stored values read in sequence are non-decreasing. -/
theorem c9_last_operate_time_monotone (t0 : Nat)
    (trace : List (Nat × InputEventRec)) :
    (initWorker t0).lastOperateTime = 0 ∧
    List.Chain' (fun a b => a ≤ b)
      ((workerStates (initWorker t0) trace).map (fun w => w.lastOperateTime)) :=
  ⟨rfl, workerStates_chain trace (initWorker t0) (Nat.zero_le _)⟩

/-- Claim C6 (amended): the name cleanup removes the maximal run of
leading quote characters and the maximal run of trailing quote
characters (everything, if the name is all quotes), leaving the interior
unchanged. -/
theorem c6_strip_all_quotes (nm : List Char) :
    stripName nm =
      ((nm.dropWhile (fun c => c == '"')).reverse.dropWhile
        (fun c => c == '"')).reverse := by
  unfold stripName
  split
  · rename_i hemp
    simp only [List.isEmpty_iff] at hemp
    subst hemp
    rfl
  · rw [eraseFront_eq_dropWhile, eraseBack_eq_rdropWhile]

end IDL
